import Mathlib

/-!
Verification of the RunPod job adapter (src/handler.py).

The adapter receives a job mapping, extracts its `input` field, serializes it
to JSON, invokes a Node.js subprocess with the serialized text as the sole
extra argument, waits with a 900 second timeout, and reshapes the subprocess
outcome into a structured result record.

Shallow embedding notes:
* JSON-serializable Python values (the data model of jobs per the spec:
  values delivered by the serverless framework after JSON deserialization)
  are modelled by the mutually inductive type `JVal` / `JArr` / `JObj`.
  Python `None` is `JVal.null`.  Numbers are modelled as integers; floating
  point numbers are outside the embedding.
* `dumpsChars` models Python's `json.dumps` with its default settings
  (separators `, ` and `: `, `ensure_ascii=True` so that characters outside
  printable ASCII are emitted as `\uXXXX` escapes, astral characters as
  UTF-16 surrogate pairs).
* `loads` models strict JSON parsing as performed by `json.loads` on the
  subprocess stdout and by the subprocess itself on its argument.  It is a
  fuel-indexed recursive-descent parser; the fuel is the input length plus
  one, which always suffices because the parser consumes at least one
  character before each nested call.
* The subprocess is modelled as an oracle `behavior : List String → ProcResult`
  mapping the spawned command line to the observed outcome (exit with code
  and captured streams, timeout, or a spawn-time exception).  `handlerRun`
  mirrors `handler` in src/handler.py and additionally records the list of
  spawned command lines so that invariants about process creation can be
  stated.
-/

mutual
/-- JSON-serializable structured values (arrays and objects are given by the
mutually defined list types below, keeping all recursion structural). -/
inductive JVal where
  | null
  | bool (b : Bool)
  | num (n : Int)
  | str (s : String)
  | arr (a : JArr)
  | obj (o : JObj)
inductive JArr where
  | nil
  | cons (v : JVal) (tl : JArr)
inductive JObj where
  | nil
  | cons (k : String) (v : JVal) (tl : JObj)
end

/-- Build a `JArr` from a Lean list, for readable concrete examples. -/
def jarrOf (l : List JVal) : JArr :=
  l.foldr JArr.cons JArr.nil

/-- Build a `JObj` from a Lean association list, for readable examples. -/
def jobjOf (l : List (String × JVal)) : JObj :=
  l.foldr (fun p o => JObj.cons p.1 p.2 o) JObj.nil

/-- Decimal digit character (`0`–`9`). -/
def digitChar (d : Nat) : Char :=
  Char.ofNat (48 + d)

/-- Lowercase hexadecimal digit character, as produced by Python's
`ensure_ascii` escaping. -/
def hexDigit (d : Nat) : Char :=
  if d < 10 then Char.ofNat (48 + d) else Char.ofNat (87 + d)

/-- Four-character lowercase hexadecimal rendering of `n < 65536`. -/
def hex4 (n : Nat) : List Char :=
  [hexDigit (n / 4096 % 16), hexDigit (n / 256 % 16), hexDigit (n / 16 % 16), hexDigit (n % 16)]

/-- `json.dumps` escaping of one character under `ensure_ascii=True`:
quote and backslash get two-character escapes, the five classic control
characters get their short escapes, every other character outside printable
ASCII is emitted as `\uXXXX` (a surrogate pair when above the basic
multilingual plane), and printable ASCII is emitted verbatim. -/
def escapeChar (c : Char) : List Char :=
  if c = '"' then ['\\', '"']
  else if c = '\\' then ['\\', '\\']
  else if c = Char.ofNat 8 then ['\\', 'b']
  else if c = '\t' then ['\\', 't']
  else if c = '\n' then ['\\', 'n']
  else if c = Char.ofNat 12 then ['\\', 'f']
  else if c = Char.ofNat 13 then ['\\', 'r']
  else if c.toNat < 32 then '\\' :: 'u' :: hex4 c.toNat
  else if c.toNat < 127 then [c]
  else if c.toNat < 65536 then '\\' :: 'u' :: hex4 c.toNat
  else
    ('\\' :: 'u' :: hex4 (55296 + (c.toNat - 65536) / 1024)) ++
      ('\\' :: 'u' :: hex4 (56320 + (c.toNat - 65536) % 1024))

/-- Escaped body of a serialized JSON string. -/
def escString (l : List Char) : List Char :=
  (l.map escapeChar).flatten

/-- A serialized JSON string, including the surrounding quotes. -/
def strChars (s : String) : List Char :=
  '"' :: (escString s.data ++ ['"'])

/-- Decimal digits of a natural number, most significant first; the first
argument is structural fuel (any value above the number of decimal digits,
`n + 1` always suffices). -/
def natCharsAux : Nat → Nat → List Char
  | 0, _ => []
  | fuel + 1, n =>
    if n < 10 then [digitChar n] else natCharsAux fuel (n / 10) ++ [digitChar (n % 10)]

/-- Decimal rendering of a natural number. -/
def natChars (n : Nat) : List Char :=
  natCharsAux (n + 1) n

/-- Decimal rendering of an integer, as Python renders `int` inside JSON. -/
def intChars (i : Int) : List Char :=
  if i < 0 then '-' :: natChars i.natAbs else natChars i.natAbs

mutual
/-- `json.dumps` with its default settings, at the character-list level. -/
def dumpsChars : JVal → List Char
  | JVal.null => ['n', 'u', 'l', 'l']
  | JVal.bool true => ['t', 'r', 'u', 'e']
  | JVal.bool false => ['f', 'a', 'l', 's', 'e']
  | JVal.num i => intChars i
  | JVal.str s => strChars s
  | JVal.arr JArr.nil => ['[', ']']
  | JVal.arr (JArr.cons v tl) => '[' :: (dumpsChars v ++ (arrTailChars tl ++ [']']))
  | JVal.obj JObj.nil => [Char.ofNat 123, Char.ofNat 125]
  | JVal.obj (JObj.cons k v tl) =>
      Char.ofNat 123 ::
        (strChars k ++ (':' :: ' ' :: (dumpsChars v ++ (objTailChars tl ++ [Char.ofNat 125]))))
def arrTailChars : JArr → List Char
  | JArr.nil => []
  | JArr.cons v tl => ',' :: ' ' :: (dumpsChars v ++ arrTailChars tl)
def objTailChars : JObj → List Char
  | JObj.nil => []
  | JObj.cons k v tl =>
      ',' :: ' ' :: (strChars k ++ (':' :: ' ' :: (dumpsChars v ++ objTailChars tl)))
end

/-- `json.dumps` with its default settings (the serialization applied to
`job.input` before it is passed as the subprocess argument). -/
def dumps (v : JVal) : String :=
  String.mk (dumpsChars v)

/-- JSON insignificant whitespace. -/
def isWsC (c : Char) : Bool :=
  c = ' ' || c = '\t' || c = '\n' || c = Char.ofNat 13

/-- ASCII decimal digit test used by the number grammar. -/
def charIsDigit (c : Char) : Bool :=
  decide (48 ≤ c.toNat ∧ c.toNat ≤ 57)

/-- Drop leading JSON whitespace. -/
def skipWs : List Char → List Char
  | [] => []
  | c :: cs => if isWsC c then skipWs cs else c :: cs

/-- The input does not continue with a decimal digit (the boundary condition
under which a serialized number is parsed back exactly). -/
def noDigitHead : List Char → Bool
  | [] => true
  | c :: _ => !(charIsDigit c)

/-- Hexadecimal digit value (JSON escapes accept both cases). -/
def hexVal (c : Char) : Option Nat :=
  if 48 ≤ c.toNat ∧ c.toNat ≤ 57 then some (c.toNat - 48)
  else if 97 ≤ c.toNat ∧ c.toNat ≤ 102 then some (c.toNat - 87)
  else if 65 ≤ c.toNat ∧ c.toNat ≤ 70 then some (c.toNat - 55)
  else none

/-- Value of a four-digit hexadecimal escape. -/
def hex4Val (a b c d : Char) : Option Nat :=
  match hexVal a, hexVal b, hexVal c, hexVal d with
  | some x, some y, some z, some w => some (((x * 16 + y) * 16 + z) * 16 + w)
  | _, _, _, _ => none

/-- Single-character JSON escapes (`\"`, `\\`, `\/`, `\b`, `\f`, `\n`,
`\r`, `\t`). -/
def escShort (c : Char) : Option Char :=
  if c = '"' then some '"'
  else if c = '\\' then some '\\'
  else if c = '/' then some '/'
  else if c = 'b' then some (Char.ofNat 8)
  else if c = 'f' then some (Char.ofNat 12)
  else if c = 'n' then some '\n'
  else if c = 'r' then some (Char.ofNat 13)
  else if c = 't' then some '\t'
  else none

/-- Decode one escape sequence after a backslash, returning the decoded
character and the remaining input.  Surrogate pairs in `\uXXXX` escapes are
recombined; an unpaired surrogate escape is rejected (Lean characters are
Unicode scalar values, so its decoded form is not representable). -/
def parseEsc (r : List Char) : Option (Char × List Char) :=
  match r with
  | [] => none
  | e :: r2 =>
    if e = 'u' then
      match r2 with
      | a :: b :: z :: d :: r3 =>
        match hex4Val a b z d with
        | none => none
        | some n =>
          if n < 55296 ∨ 57344 ≤ n then some (Char.ofNat n, r3)
          else if n ≤ 56319 then
            match r3 with
            | b1 :: b2 :: a2 :: b2' :: z2 :: d2 :: r4 =>
              if b1 = '\\' ∧ b2 = 'u' then
                match hex4Val a2 b2' z2 d2 with
                | none => none
                | some m =>
                  if 56320 ≤ m ∧ m ≤ 57343 then
                    some (Char.ofNat (65536 + (n - 55296) * 1024 + (m - 56320)), r4)
                  else none
              else none
            | _ => none
          else none
      | _ => none
    else
      match escShort e with
      | some ec => some (ec, r2)
      | none => none

/-- Parse the body of a JSON string after the opening quote, up to and
including the closing quote.  Returns the decoded characters and the rest of
the input.  The `Nat` argument is structural fuel; fuel reaching the input
length always suffices since each step consumes at least one character. -/
def parseStringBody : Nat → List Char → Option (List Char × List Char)
  | 0, _ => none
  | fuel + 1, s =>
    match s with
    | [] => none
    | c :: rest =>
      if c = '"' then some ([], rest)
      else if c = '\\' then
        match parseEsc rest with
        | some p => (parseStringBody fuel p.2).map (fun q => (p.1 :: q.1, q.2))
        | none => none
      else if c.toNat < 32 then none
      else (parseStringBody fuel rest).map (fun q => (c :: q.1, q.2))

/-- Accumulate leading decimal digits. -/
def parseDigitsAcc : Nat → List Char → Nat × List Char
  | acc, [] => (acc, [])
  | acc, c :: cs =>
    if charIsDigit c then parseDigitsAcc (acc * 10 + (c.toNat - 48)) cs else (acc, c :: cs)

/-- Parse a JSON natural-number literal (`0`, or a nonzero digit followed by
digits, exactly the `0|[1-9][0-9]*` integer grammar of JSON). -/
def parseNatNum : List Char → Option (Nat × List Char)
  | [] => none
  | c :: cs =>
    if c = '0' then some (0, cs)
    else if charIsDigit c then some (parseDigitsAcc 0 (c :: cs))
    else none

/-- Parse the remaining elements of a nonempty array: repeatedly a comma and
a value, terminated by the closing bracket (which is consumed).  `pv` parses
one value; the `Nat` argument is structural fuel. -/
def parseArrRestWith (pv : List Char → Option (JVal × List Char)) :
    Nat → List Char → Option (JArr × List Char)
  | 0, _ => none
  | fuel + 1, s =>
    match skipWs s with
    | [] => none
    | d :: r =>
      if d = ']' then some (JArr.nil, r)
      else if d = ',' then
        (pv (skipWs r)).bind (fun p =>
          (parseArrRestWith pv fuel p.2).map (fun q => (JArr.cons p.1 q.1, q.2)))
      else none

/-- Parse one object member: a string key, a colon, a value.  The `Nat`
argument is the fuel handed to the key's string parser. -/
def parseMemberWith (pv : List Char → Option (JVal × List Char)) (fuel : Nat) :
    List Char → Option ((String × JVal) × List Char)
  | [] => none
  | d :: r =>
    if d = '"' then
      (parseStringBody fuel r).bind (fun kp =>
        match skipWs kp.2 with
        | [] => none
        | d2 :: r2 =>
          if d2 = ':' then
            (pv (skipWs r2)).map (fun vp => ((String.mk kp.1, vp.1), vp.2))
          else none)
    else none

/-- Parse the remaining members of a nonempty object: repeatedly a comma and
a member, terminated by the closing brace (which is consumed). -/
def parseObjRestWith (pm : List Char → Option ((String × JVal) × List Char)) :
    Nat → List Char → Option (JObj × List Char)
  | 0, _ => none
  | fuel + 1, s =>
    match skipWs s with
    | [] => none
    | d :: r =>
      if d = Char.ofNat 125 then some (JObj.nil, r)
      else if d = ',' then
        (pm (skipWs r)).bind (fun p =>
          (parseObjRestWith pm fuel p.2).map (fun q => (JObj.cons p.1.1 p.1.2 q.1, q.2)))
      else none

/-- Recursive-descent JSON value parser.  The `Nat` argument is structural
fuel; since at least one character is consumed before every nested call,
fuel exceeding the input length always suffices. -/
def parseVal : Nat → List Char → Option (JVal × List Char)
  | 0, _ => none
  | fuel + 1, s =>
    match s with
    | [] => none
    | c :: rest =>
      if c = 'n' then
        match rest with
        | c1 :: c2 :: c3 :: r =>
          if c1 = 'u' ∧ c2 = 'l' ∧ c3 = 'l' then some (JVal.null, r) else none
        | _ => none
      else if c = 't' then
        match rest with
        | c1 :: c2 :: c3 :: r =>
          if c1 = 'r' ∧ c2 = 'u' ∧ c3 = 'e' then some (JVal.bool true, r) else none
        | _ => none
      else if c = 'f' then
        match rest with
        | c1 :: c2 :: c3 :: c4 :: r =>
          if c1 = 'a' ∧ c2 = 'l' ∧ c3 = 's' ∧ c4 = 'e' then some (JVal.bool false, r)
          else none
        | _ => none
      else if c = '"' then
        (parseStringBody fuel rest).map (fun p => (JVal.str (String.mk p.1), p.2))
      else if c = '[' then
        match skipWs rest with
        | [] => none
        | d :: r =>
          if d = ']' then some (JVal.arr JArr.nil, r)
          else
            (parseVal fuel (d :: r)).bind (fun p =>
              (parseArrRestWith (parseVal fuel) fuel p.2).map
                (fun q => (JVal.arr (JArr.cons p.1 q.1), q.2)))
      else if c = Char.ofNat 123 then
        match skipWs rest with
        | [] => none
        | d :: r =>
          if d = Char.ofNat 125 then some (JVal.obj JObj.nil, r)
          else
            (parseMemberWith (parseVal fuel) fuel (d :: r)).bind (fun p =>
              (parseObjRestWith (parseMemberWith (parseVal fuel) fuel) fuel p.2).map
                (fun q => (JVal.obj (JObj.cons p.1.1 p.1.2 q.1), q.2)))
      else if c = '-' then
        (parseNatNum rest).map (fun p => (JVal.num (-(p.1 : Int)), p.2))
      else if charIsDigit c then
        (parseNatNum (c :: rest)).map (fun p => (JVal.num (p.1 : Int), p.2))
      else none

/-- Strict JSON parsing of a whole text, as `json.loads` performs on the
subprocess stdout (and, modelled from the spec, as the missing
`handler.js` performs on its command-line argument): the text must consist
of one JSON value surrounded by nothing but whitespace. -/
def loads (s : String) : Option JVal :=
  match parseVal (s.data.length + 1) (skipWs s.data) with
  | some (v, r) => if skipWs r = [] then some v else none
  | none => none


/-- Outcome of one subprocess invocation as observed by `subprocess.run` in
src/handler.py: normal completion with an exit code and captured text
streams, expiry of the timeout, or some other exception raised while
spawning or waiting (an `OSError`, for instance). -/
inductive ProcResult where
  | completed (returncode : Int) (stdout : String) (stderr : String)
  | timedOut
  | raised (msg : String)

/-- The structured result record returned by the handler: either the parsed
subprocess stdout, or one of the three error-record shapes built in
src/handler.py. -/
inductive HandlerResult where
  | parsed (v : JVal)
  | error (msg : String)
  | errorStderr (msg : String) (stderr : String)
  | errorRaw (msg : String) (raw : String)

/-- The fixed timeout passed to `subprocess.run` (src/handler.py line 41). -/
def timeoutSeconds : Nat := 900

/-- Stands for the absolute path to `handler.js` computed once at process
start from the handler's own directory (src/handler.py lines 7-9); the
adapter's behavior never depends on its value. -/
def nodeScriptPath : String := "handler.js"

/-- The command line built at src/handler.py line 30:
`['node', node_script_path, input_json_string]`. -/
def mkCommand (input : JVal) : List String :=
  ["node", nodeScriptPath, dumps input]

/-- Result of one handler call together with the list of command lines it
spawned, so that process-creation invariants can be stated. -/
structure HandlerRun where
  result : HandlerResult
  spawned : List (List String)

/-- `job.get(key, None)`: dictionary lookup defaulting to `None`. -/
def jobGet (job : List (String × JVal)) (k : String) : JVal :=
  match List.lookup k job with
  | some v => v
  | none => JVal.null

/-- `is None` test on a Python value. -/
def isNull : JVal → Bool
  | JVal.null => true
  | _ => false

/-- Shallow embedding of `handler(job)` from src/handler.py.  The job is a
string-keyed mapping of JSON-serializable values; `behavior` is the oracle
giving the outcome of running a command line.  Mirrors the source: extract
`input` with default `None` and fail early when it `is None`; otherwise
serialize the input, build the command, run it, and map each outcome
(`CalledProcessError`, `TimeoutExpired`, any other exception, JSON parse
failure of stdout) to its structured record.  The `print` logging calls are
side effects with no influence on the returned record and are not
modelled. -/
def handlerRun (job : List (String × JVal)) (behavior : List String → ProcResult) : HandlerRun :=
  let job_input := jobGet job "input"
  if isNull job_input then
    { result := HandlerResult.error "No input provided in the job", spawned := [] }
  else
    let command := mkCommand job_input
    match behavior command with
    | ProcResult.completed rc out errText =>
      if rc = 0 then
        match loads out with
        | some v => { result := HandlerResult.parsed v, spawned := [command] }
        | none =>
          { result := HandlerResult.errorRaw "Node.js script did not return valid JSON" out,
            spawned := [command] }
      else
        { result :=
            HandlerResult.errorStderr
              ("Node.js script failed with exit code " ++ toString rc) errText,
          spawned := [command] }
    | ProcResult.timedOut =>
      { result :=
          HandlerResult.error
            ("Node.js script timed out after " ++ toString timeoutSeconds ++ " seconds"),
        spawned := [command] }
    | ProcResult.raised msg =>
      { result := HandlerResult.error ("Python handler error: " ++ msg), spawned := [command] }

/-- The handler's returned record alone. -/
def handler (job : List (String × JVal)) (behavior : List String → ProcResult) : HandlerResult :=
  (handlerRun job behavior).result

/-- Claim C1: for every job whose subprocess invocation exits with status
code zero and whose captured standard output is valid JSON text, the handler
returns the value obtained by parsing that standard output. -/
theorem handler_returns_parsed_stdout_json
    (job : List (String × JVal)) (behavior : List String → ProcResult)
    (out errText : String) (v : JVal)
    (hin : isNull (jobGet job "input") = false)
    (hbeh : behavior (mkCommand (jobGet job "input")) = ProcResult.completed 0 out errText)
    (hout : loads out = some v) :
    handler job behavior = HandlerResult.parsed v := by
  simp [handler, handlerRun, hin, hbeh, hout]

/-- Witness for C1 at the spec's concrete example: the subprocess exits 0
printing the serialization of the object with the single member `ok: true`,
and the handler returns exactly that structured value. -/
theorem handler_returns_parsed_stdout_json_witness :
    handler [("input", JVal.str "x")]
        (fun _ => ProcResult.completed 0 (dumps (JVal.obj (jobjOf [("ok", JVal.bool true)]))) "") =
      HandlerResult.parsed (JVal.obj (jobjOf [("ok", JVal.bool true)])) :=
  handler_returns_parsed_stdout_json _ _ _ _ _ rfl rfl rfl

/-- Claim C2: for every job mapping with no `input` key, the handler returns
exactly the missing-input error record and spawns no subprocess. -/
theorem handler_missing_input_error
    (job : List (String × JVal)) (behavior : List String → ProcResult)
    (h : List.lookup "input" job = none) :
    handlerRun job behavior =
      { result := HandlerResult.error "No input provided in the job", spawned := [] } := by
  simp [handlerRun, jobGet, h, isNull]

/-- Witness for C2: a job carrying only framework metadata. -/
theorem handler_missing_input_error_witness :
    handlerRun [("id", JVal.str "job-42")] (fun _ => ProcResult.timedOut) =
      { result := HandlerResult.error "No input provided in the job", spawned := [] } :=
  handler_missing_input_error _ _ rfl

/-- Claim C3: for every job whose subprocess exits with a nonzero status
code, the handler returns exactly the nonzero-exit error record carrying the
exit code in its message and the captured stderr text (and nothing from
stdout). -/
theorem handler_nonzero_exit_error
    (job : List (String × JVal)) (behavior : List String → ProcResult)
    (rc : Int) (out errText : String)
    (hin : isNull (jobGet job "input") = false)
    (hbeh : behavior (mkCommand (jobGet job "input")) = ProcResult.completed rc out errText)
    (hrc : rc ≠ 0) :
    handler job behavior =
      HandlerResult.errorStderr ("Node.js script failed with exit code " ++ toString rc) errText := by
  simp [handler, handlerRun, hin, hbeh, hrc]

/-- Witness for C3 at the spec's concrete example: exit code 2 with stderr
`boom`; the stdout text `ignored` does not appear in the result. -/
theorem handler_nonzero_exit_error_witness :
    handler [("input", JVal.num 1)] (fun _ => ProcResult.completed 2 "ignored" "boom") =
      HandlerResult.errorStderr "Node.js script failed with exit code 2" "boom" :=
  handler_nonzero_exit_error _ _ 2 "ignored" "boom" rfl rfl (by decide)

/-- Claim C4: for every job whose subprocess exits 0 but prints text that is
not valid JSON, the handler returns exactly the invalid-JSON error record
carrying the raw stdout text. -/
theorem handler_invalid_json_error
    (job : List (String × JVal)) (behavior : List String → ProcResult)
    (out errText : String)
    (hin : isNull (jobGet job "input") = false)
    (hbeh : behavior (mkCommand (jobGet job "input")) = ProcResult.completed 0 out errText)
    (hout : loads out = none) :
    handler job behavior =
      HandlerResult.errorRaw "Node.js script did not return valid JSON" out := by
  simp [handler, handlerRun, hin, hbeh, hout]

/-- Witness for C4 at the spec's concrete example: stdout `hello`. -/
theorem handler_invalid_json_error_witness :
    handler [("input", JVal.num 3)] (fun _ => ProcResult.completed 0 "hello" "") =
      HandlerResult.errorRaw "Node.js script did not return valid JSON" "hello" :=
  handler_invalid_json_error _ _ "hello" "" rfl rfl rfl

/-- Claim C5: the subprocess wait uses the fixed 900-second timeout, and on
timeout the handler returns exactly the timeout error record, with no other
field. -/
theorem handler_timeout_error :
    timeoutSeconds = 900 ∧
      ∀ (job : List (String × JVal)) (behavior : List String → ProcResult),
        isNull (jobGet job "input") = false →
        behavior (mkCommand (jobGet job "input")) = ProcResult.timedOut →
        handler job behavior =
          HandlerResult.error "Node.js script timed out after 900 seconds" := by
  refine ⟨rfl, ?_⟩
  intro job behavior hin hbeh
  simp [handler, handlerRun, hin, hbeh]
  rfl

/-- Witness for C5: a job whose subprocess runs past the timeout. -/
theorem handler_timeout_error_witness :
    handler [("input", JVal.bool false)] (fun _ => ProcResult.timedOut) =
      HandlerResult.error "Node.js script timed out after 900 seconds" :=
  handler_timeout_error.2 _ _ rfl rfl

/-- Claim C6: for every job mapping (over the JSON-serializable value domain
the framework delivers) and every subprocess behavior, the handler returns a
well-formed structured result record — one of the four shapes built in
src/handler.py — and never propagates an uncaught exception; every modelled
failure (subprocess exception, nonzero exit, timeout, stdout parse failure)
is converted locally into an error record. -/
theorem handler_total_structured_result
    (job : List (String × JVal)) (behavior : List String → ProcResult) :
    (∃ v, handler job behavior = HandlerResult.parsed v) ∨
      (∃ m, handler job behavior = HandlerResult.error m) ∨
      (∃ m s, handler job behavior = HandlerResult.errorStderr m s) ∨
      (∃ m r, handler job behavior = HandlerResult.errorRaw m r) := by
  cases h : handler job behavior with
  | parsed v => exact Or.inl ⟨v, rfl⟩
  | error m => exact Or.inr (Or.inl ⟨m, rfl⟩)
  | errorStderr m s => exact Or.inr (Or.inr (Or.inl ⟨m, s, rfl⟩))
  | errorRaw m r => exact Or.inr (Or.inr (Or.inr ⟨m, r, rfl⟩))

/-- Counterexample to claim C7 as stated: for a job whose `input` key is
present with the explicit value null, the handler does NOT forward null to
the subprocess; it spawns nothing and returns the missing-input error,
because `job.get('input', None) is None` cannot distinguish an explicit null
from an absent key (src/handler.py lines 19-22). -/
theorem handler_null_input_counterexample :
    handlerRun [("input", JVal.null)] (fun _ => ProcResult.completed 0 "null" "") =
      { result := HandlerResult.error "No input provided in the job", spawned := [] } := rfl

/-- Amended C7: a job whose `input` key is present with the explicit value
null is treated exactly like a job with no `input` key — the handler returns
the missing-input error record and starts no subprocess. -/
theorem handler_null_input_treated_missing
    (job : List (String × JVal)) (behavior : List String → ProcResult)
    (h : List.lookup "input" job = some JVal.null) :
    handlerRun job behavior =
      { result := HandlerResult.error "No input provided in the job", spawned := [] } := by
  simp [handlerRun, jobGet, h, isNull]

/-- Witness for amended C7. -/
theorem handler_null_input_treated_missing_witness :
    handlerRun [("id", JVal.num 9), ("input", JVal.null)] (fun _ => ProcResult.timedOut) =
      { result := HandlerResult.error "No input provided in the job", spawned := [] } :=
  handler_null_input_treated_missing _ _ rfl

/-- Counterexample to claim C8 as stated: a job with no `input` performs
zero subprocess invocations, not exactly one. -/
theorem handler_spawn_not_always_once :
    ¬ (handlerRun [] (fun _ => ProcResult.timedOut)).spawned.length = 1 := by
  decide

/-- Amended C8: each handler call spawns at most one subprocess — exactly
one when the job's `input` is present (and not null), namely the `node`
command on the script path with the serialized input, and zero otherwise.
No retries occur. -/
theorem handler_spawn_count
    (job : List (String × JVal)) (behavior : List String → ProcResult) :
    (handlerRun job behavior).spawned.length ≤ 1 ∧
      (handlerRun job behavior).spawned =
        (if isNull (jobGet job "input") = true then []
         else [mkCommand (jobGet job "input")]) := by
  unfold handlerRun
  by_cases h : isNull (jobGet job "input") = true
  · simp [h]
  · cases hb : behavior (mkCommand (jobGet job "input")) with
    | completed rc out errText =>
      by_cases hrc : rc = 0
      · cases hout : loads out <;> simp [h, hb, hrc, hout]
      · simp [h, hb, hrc]
    | timedOut => simp [h, hb]
    | raised m => simp [h, hb]

/-- Claim C10: the handler's result (and its spawn behavior) depends only on
the value of the job's `input` field — absent and explicit-null both read as
null — together with the subprocess behavior; no other field of the job
influences the outcome. -/
theorem handler_depends_only_on_input
    (j1 j2 : List (String × JVal)) (behavior : List String → ProcResult)
    (h : jobGet j1 "input" = jobGet j2 "input") :
    handlerRun j1 behavior = handlerRun j2 behavior := by
  unfold handlerRun
  rw [h]

/-- Witness for C10: two jobs with equal `input` but different metadata
fields produce identical runs. -/
theorem handler_depends_only_on_input_witness :
    handlerRun [("input", JVal.str "a"), ("id", JVal.num 1)] (fun _ => ProcResult.timedOut) =
      handlerRun [("id", JVal.num 2), ("input", JVal.str "a"), ("webhook", JVal.str "w")]
        (fun _ => ProcResult.timedOut) :=
  handler_depends_only_on_input _ _ _ rfl

theorem charIsDigit_toNat {c : Char} (h : charIsDigit c = true) :
    48 ≤ c.toNat ∧ c.toNat ≤ 57 :=
  of_decide_eq_true h

theorem char_ne_of_toNat_ne {c d : Char} (h : c.toNat ≠ d.toNat) : c ≠ d :=
  fun he => h (he ▸ rfl)

theorem char_valid_nat (c : Char) :
    c.toNat < 55296 ∨ (57344 ≤ c.toNat ∧ c.toNat < 1114112) := by
  rcases c.valid with h | h
  · exact Or.inl h
  · exact Or.inr h

theorem charIsDigit_digitChar {d : Nat} (h : d < 10) :
    charIsDigit (digitChar d) = true := by
  interval_cases d <;> decide

theorem digitChar_toNat {d : Nat} (h : d < 10) : (digitChar d).toNat = 48 + d := by
  interval_cases d <;> decide

theorem hexVal_hexDigit {d : Nat} (h : d < 16) : hexVal (hexDigit d) = some d := by
  interval_cases d <;> decide

theorem hex4Val_hex4 {n : Nat} (h : n < 65536) :
    hex4Val (hexDigit (n / 4096 % 16)) (hexDigit (n / 256 % 16))
      (hexDigit (n / 16 % 16)) (hexDigit (n % 16)) = some n := by
  have h1 : hexVal (hexDigit (n / 4096 % 16)) = some (n / 4096 % 16) :=
    hexVal_hexDigit (Nat.mod_lt _ (by norm_num))
  have h2 : hexVal (hexDigit (n / 256 % 16)) = some (n / 256 % 16) :=
    hexVal_hexDigit (Nat.mod_lt _ (by norm_num))
  have h3 : hexVal (hexDigit (n / 16 % 16)) = some (n / 16 % 16) :=
    hexVal_hexDigit (Nat.mod_lt _ (by norm_num))
  have h4 : hexVal (hexDigit (n % 16)) = some (n % 16) :=
    hexVal_hexDigit (Nat.mod_lt _ (by norm_num))
  have hn : ((n / 4096 % 16 * 16 + n / 256 % 16) * 16 + n / 16 % 16) * 16 + n % 16 = n := by
    omega
  rw [hex4Val, h1, h2, h3, h4]
  simp only []
  rw [hn]

theorem skipWs_cons_not_ws {c : Char} (h : isWsC c = false) (l : List Char) :
    skipWs (c :: l) = c :: l := by
  simp [skipWs, h]

theorem natCharsAux_fuel :
    ∀ f1 : Nat, ∀ f2 n : Nat, n < f1 → n < f2 → natCharsAux f1 n = natCharsAux f2 n := by
  intro f1
  induction f1 with
  | zero => intro f2 n h1 _; omega
  | succ g1 ih =>
    intro f2 n h1 h2
    cases f2 with
    | zero => omega
    | succ g2 =>
      by_cases h : n < 10
      · simp [natCharsAux, h]
      · have hlt : n / 10 < n := Nat.div_lt_self (by omega) (by norm_num)
        simp only [natCharsAux, h, if_false]
        rw [ih g2 (n / 10) (by omega) (by omega)]

theorem natChars_eq (n : Nat) :
    natChars n = if n < 10 then [digitChar n] else natChars (n / 10) ++ [digitChar (n % 10)] := by
  by_cases h : n < 10
  · simp [natChars, natCharsAux, h]
  · have h1 : natChars n = natCharsAux n (n / 10) ++ [digitChar (n % 10)] := by
      rw [natChars, natCharsAux]
      simp [h]
    rw [h1, if_neg h, natCharsAux_fuel n (n / 10 + 1) (n / 10) (by omega) (by omega)]
    rfl

theorem natChars_ne_nil (n : Nat) : natChars n ≠ [] := by
  rw [natChars_eq]
  by_cases h : n < 10 <;> simp [h]

theorem natChars_all_digits : ∀ n : Nat, ∀ c ∈ natChars n, charIsDigit c = true := by
  intro n
  induction n using Nat.strong_induction_on with
  | _ n ih =>
    intro c hc
    rw [natChars_eq] at hc
    by_cases h : n < 10
    · simp [h] at hc
      exact hc ▸ charIsDigit_digitChar h
    · simp only [h, if_false, List.mem_append, List.mem_singleton] at hc
      rcases hc with hc | hc
      · exact ih (n / 10) (Nat.div_lt_self (by omega) (by norm_num)) c hc
      · exact hc ▸ charIsDigit_digitChar (Nat.mod_lt _ (by norm_num))

theorem natChars_head_ne_zero :
    ∀ n : Nat, 1 ≤ n → ∀ c cs, natChars n = c :: cs → c ≠ '0' := by
  intro n
  induction n using Nat.strong_induction_on with
  | _ n ih =>
    intro hn c cs hc
    rw [natChars_eq] at hc
    by_cases h : n < 10
    · simp [h] at hc
      obtain ⟨h1, -⟩ := hc
      subst h1
      apply char_ne_of_toNat_ne
      rw [digitChar_toNat h]
      have h0 : Char.toNat '0' = 48 := rfl
      omega
    · simp only [h, if_false] at hc
      obtain ⟨c0, cs0, h0⟩ := List.exists_cons_of_ne_nil (natChars_ne_nil (n / 10))
      rw [h0, List.cons_append] at hc
      have hcc : c0 = c := (List.cons_eq_cons.mp hc).1
      exact hcc ▸ ih (n / 10) (Nat.div_lt_self (by omega) (by norm_num)) (by omega) c0 cs0 h0

theorem parseDigitsAcc_stop {rest : List Char} (h : noDigitHead rest = true) (a : Nat) :
    parseDigitsAcc a rest = (a, rest) := by
  cases rest with
  | nil => rfl
  | cons c cs =>
    have hc : charIsDigit c = false := by
      simpa [noDigitHead] using h
    simp [parseDigitsAcc, hc]

theorem parseDigitsAcc_natChars :
    ∀ n acc rest, parseDigitsAcc acc (natChars n ++ rest) =
      parseDigitsAcc (acc * 10 ^ (natChars n).length + n) rest := by
  intro n
  induction n using Nat.strong_induction_on with
  | _ n ih =>
    intro acc rest
    rw [natChars_eq]
    by_cases h : n < 10
    · simp only [h, if_true, List.length_singleton, pow_one, List.singleton_append]
      rw [parseDigitsAcc]
      simp [charIsDigit_digitChar h, digitChar_toNat h]
    · simp only [h, if_false, List.length_append, List.length_singleton, List.append_assoc,
        List.singleton_append]
      rw [ih (n / 10) (Nat.div_lt_self (by omega) (by norm_num))]
      rw [parseDigitsAcc]
      simp only [charIsDigit_digitChar (Nat.mod_lt n (by norm_num)), if_true,
        digitChar_toNat (Nat.mod_lt n (by norm_num))]
      congr 1
      have hd : 48 + n % 10 - 48 = n % 10 := by omega
      rw [hd, pow_succ, ← mul_assoc]
      have hdm : n / 10 * 10 + n % 10 = n := by omega
      set P := acc * 10 ^ (natChars (n / 10)).length with hP
      omega

theorem parseNatNum_natChars (n : Nat) (rest : List Char) (h : noDigitHead rest = true) :
    parseNatNum (natChars n ++ rest) = some (n, rest) := by
  rcases Nat.eq_zero_or_pos n with h0 | h1
  · subst h0
    have hz : natChars 0 = ['0'] := by
      rw [natChars_eq]
      norm_num
      rfl
    rw [hz, List.singleton_append, parseNatNum]
    simp
  · obtain ⟨c, cs, hc⟩ := List.exists_cons_of_ne_nil (natChars_ne_nil n)
    have hdig : charIsDigit c = true :=
      natChars_all_digits n c (hc ▸ List.mem_cons_self c cs)
    have hne0 : c ≠ '0' := natChars_head_ne_zero n h1 c cs hc
    rw [hc, List.cons_append, parseNatNum]
    rw [if_neg hne0, if_pos hdig, ← List.cons_append, ← hc, parseDigitsAcc_natChars,
      Nat.zero_mul, Nat.zero_add, parseDigitsAcc_stop h]

theorem string_mk_data (s : String) : String.mk s.data = s := rfl

theorem parseEsc_u (a b z d : Char) (n : Nat) (t : List Char)
    (hv : hex4Val a b z d = some n) (hn : n < 55296 ∨ 57344 ≤ n) :
    parseEsc ('u' :: a :: b :: z :: d :: t) = some (Char.ofNat n, t) := by
  simp only [parseEsc, reduceIte, hv]
  rw [if_pos hn]

theorem parseEsc_u_pair (a b z d a2 b2 z2 d2 : Char) (n m : Nat) (t : List Char)
    (hv1 : hex4Val a b z d = some n) (hv2 : hex4Val a2 b2 z2 d2 = some m)
    (hn1 : ¬ (n < 55296 ∨ 57344 ≤ n)) (hn2 : n ≤ 56319)
    (hm : 56320 ≤ m ∧ m ≤ 57343) :
    parseEsc ('u' :: a :: b :: z :: d :: '\\' :: 'u' :: a2 :: b2 :: z2 :: d2 :: t) =
      some (Char.ofNat (65536 + (n - 55296) * 1024 + (m - 56320)), t) := by
  simp only [parseEsc, reduceIte, hv1]
  rw [if_neg hn1, if_pos hn2]
  simp only [reduceIte, hv2, and_self, if_true]
  rw [if_pos hm]

theorem parseStringBody_close (fuel : Nat) (t : List Char) :
    parseStringBody (fuel + 1) ('"' :: t) = some ([], t) := rfl

theorem parseStringBody_lit (fuel : Nat) (c : Char) (t : List Char)
    (h1 : c ≠ '"') (h2 : c ≠ '\\') (h3 : ¬ c.toNat < 32) :
    parseStringBody (fuel + 1) (c :: t) =
      (parseStringBody fuel t).map (fun q => (c :: q.1, q.2)) := by
  rw [parseStringBody]
  rw [if_neg h1, if_neg h2, if_neg h3]

theorem parseStringBody_esc (fuel : Nat) (t : List Char) (ec : Char) (rest2 : List Char)
    (he : parseEsc t = some (ec, rest2)) :
    parseStringBody (fuel + 1) ('\\' :: t) =
      (parseStringBody fuel rest2).map (fun q => (ec :: q.1, q.2)) := by
  rw [parseStringBody]
  simp only [reduceIte, he]
  rfl

theorem escapeChar_form (c : Char) :
    (escapeChar c = [c] ∧ c ≠ '"' ∧ c ≠ '\\' ∧ ¬ c.toNat < 32) ∨
    (∃ body, escapeChar c = '\\' :: body ∧
      ∀ t, parseEsc (body ++ t) = some (c, t)) := by
  by_cases h1 : c = '"'
  · subst h1
    exact Or.inr ⟨['"'], rfl, fun t => rfl⟩
  by_cases h2 : c = '\\'
  · subst h2
    exact Or.inr ⟨['\\'], rfl, fun t => rfl⟩
  by_cases h3 : c = Char.ofNat 8
  · subst h3
    exact Or.inr ⟨['b'], rfl, fun t => rfl⟩
  by_cases h4 : c = '\t'
  · subst h4
    exact Or.inr ⟨['t'], rfl, fun t => rfl⟩
  by_cases h5 : c = '\n'
  · subst h5
    exact Or.inr ⟨['n'], rfl, fun t => rfl⟩
  by_cases h6 : c = Char.ofNat 12
  · subst h6
    exact Or.inr ⟨['f'], rfl, fun t => rfl⟩
  by_cases h7 : c = Char.ofNat 13
  · subst h7
    exact Or.inr ⟨['r'], rfl, fun t => rfl⟩
  by_cases h8 : c.toNat < 32
  · refine Or.inr ⟨'u' :: hex4 c.toNat, ?_, fun t => ?_⟩
    · simp [escapeChar, h1, h2, h3, h4, h5, h6, h7, h8]
    · rw [hex4]
      simp only [List.cons_append, List.nil_append]
      rw [parseEsc_u _ _ _ _ _ _ (hex4Val_hex4 (by omega)) (Or.inl (by omega)),
        Char.ofNat_toNat]
  by_cases h9 : c.toNat < 127
  · refine Or.inl ⟨?_, h1, h2, h8⟩
    simp [escapeChar, h1, h2, h3, h4, h5, h6, h7, h8, h9]
  by_cases h10 : c.toNat < 65536
  · have hval : c.toNat < 55296 ∨ 57344 ≤ c.toNat := by
      rcases char_valid_nat c with hv | hv
      · exact Or.inl hv
      · exact Or.inr hv.1
    refine Or.inr ⟨'u' :: hex4 c.toNat, ?_, fun t => ?_⟩
    · simp [escapeChar, h1, h2, h3, h4, h5, h6, h7, h8, h9, h10]
    · rw [hex4]
      simp only [List.cons_append, List.nil_append]
      rw [parseEsc_u _ _ _ _ _ _ (hex4Val_hex4 (by omega)) hval, Char.ofNat_toNat]
  · have hub : c.toNat < 1114112 := by
      rcases char_valid_nat c with hv | hv
      · omega
      · exact hv.2
    have hdiv : (c.toNat - 65536) / 1024 < 1024 := by omega
    have hmod : (c.toNat - 65536) % 1024 < 1024 := Nat.mod_lt _ (by norm_num)
    refine Or.inr ⟨'u' :: hex4 (55296 + (c.toNat - 65536) / 1024) ++
      ('\\' :: 'u' :: hex4 (56320 + (c.toNat - 65536) % 1024)), ?_, fun t => ?_⟩
    · simp [escapeChar, h1, h2, h3, h4, h5, h6, h7, h8, h9, h10]
    · rw [hex4, hex4]
      simp only [List.cons_append, List.append_assoc, List.nil_append]
      rw [parseEsc_u_pair _ _ _ _ _ _ _ _ _ _ _ (hex4Val_hex4 (by omega))
        (hex4Val_hex4 (by omega)) (by omega) (by omega) (by omega)]
      have hcp : 65536 + (55296 + (c.toNat - 65536) / 1024 - 55296) * 1024 +
          (56320 + (c.toNat - 65536) % 1024 - 56320) = c.toNat := by
        omega
      rw [hcp, Char.ofNat_toNat]

theorem parseStringBody_escString :
    ∀ (l : List Char) (fuel : Nat) (rest : List Char),
      (escString l ++ '"' :: rest).length ≤ fuel →
      parseStringBody fuel (escString l ++ '"' :: rest) = some (l, rest) := by
  intro l
  induction l with
  | nil =>
    intro fuel rest hlen
    have he : escString ([] : List Char) = [] := rfl
    rw [he, List.nil_append] at hlen ⊢
    cases fuel with
    | zero => simp at hlen
    | succ f => exact parseStringBody_close f rest
  | cons c l' ih =>
    intro fuel rest hlen
    have he : escString (c :: l') = escapeChar c ++ escString l' := by
      simp [escString]
    rw [he, List.append_assoc] at hlen ⊢
    rcases escapeChar_form c with ⟨hlit, hne1, hne2, hge⟩ | ⟨body, hb, hpe⟩
    · rw [hlit, List.singleton_append] at hlen ⊢
      cases fuel with
      | zero => simp at hlen
      | succ f =>
        rw [parseStringBody_lit f c _ hne1 hne2 hge, ih f rest (by
          simp only [List.length_cons] at hlen
          omega)]
        rfl
    · rw [hb, List.cons_append] at hlen ⊢
      cases fuel with
      | zero => simp at hlen
      | succ f =>
        rw [parseStringBody_esc f _ c _ (hpe _), ih f rest (by
          simp only [List.length_cons, List.length_append] at hlen ⊢
          omega)]
        rfl

theorem skipWs_cons_ws {c : Char} (h : isWsC c = true) (l : List Char) :
    skipWs (c :: l) = skipWs l := by
  simp [skipWs, h]

theorem digit_ne {c : Char} (h : charIsDigit c = true) {d : Char}
    (hd : d.toNat < 48 ∨ 57 < d.toNat) : c ≠ d := by
  intro he
  subst he
  have := charIsDigit_toNat h
  omega

theorem not_ws_of_digit {c : Char} (h : charIsDigit c = true) : isWsC c = false := by
  have h1 : c ≠ ' ' := digit_ne h (by decide)
  have h2 : c ≠ '\t' := digit_ne h (by decide)
  have h3 : c ≠ '\n' := digit_ne h (by decide)
  have h4 : c ≠ Char.ofNat 13 := digit_ne h (by decide)
  simp [isWsC, h1, h2, h3, h4]

theorem dumpsChars_ne_nil (v : JVal) : dumpsChars v ≠ [] := by
  cases v with
  | null => simp [dumpsChars]
  | bool b => cases b <;> simp [dumpsChars]
  | num i =>
    simp only [dumpsChars, intChars]
    by_cases h : i < 0
    · simp [h]
    · simp [h, natChars_ne_nil]
  | str s => simp [dumpsChars, strChars]
  | arr a => cases a <;> simp [dumpsChars]
  | obj o => cases o <;> simp [dumpsChars]

theorem dumpsChars_head (v : JVal) (c : Char) (cs : List Char) (h : dumpsChars v = c :: cs) :
    isWsC c = false ∧ c ≠ ']' ∧ c ≠ Char.ofNat 125 := by
  cases v with
  | null =>
    injection h with h1 _
    subst h1
    refine ⟨rfl, by decide, by decide⟩
  | bool b =>
    cases b <;> injection h with h1 _ <;> subst h1 <;> exact ⟨rfl, by decide, by decide⟩
  | num i =>
    simp only [dumpsChars, intChars] at h
    by_cases hi : i < 0
    · rw [if_pos hi] at h
      injection h with h1 _
      subst h1
      exact ⟨rfl, by decide, by decide⟩
    · rw [if_neg hi] at h
      have hdig : charIsDigit c = true :=
        natChars_all_digits _ c (h ▸ List.mem_cons_self c cs)
      exact ⟨not_ws_of_digit hdig, digit_ne hdig (by decide), digit_ne hdig (by decide)⟩
  | str s =>
    simp only [dumpsChars, strChars] at h
    injection h with h1 _
    subst h1
    exact ⟨rfl, by decide, by decide⟩
  | arr a =>
    cases a <;> simp only [dumpsChars] at h <;> injection h with h1 _ <;> subst h1 <;>
      exact ⟨rfl, by decide, by decide⟩
  | obj o =>
    cases o <;> simp only [dumpsChars] at h <;> injection h with h1 _ <;> subst h1 <;>
      exact ⟨rfl, by decide, by decide⟩

theorem skipWs_dumps (v : JVal) (rest : List Char) :
    skipWs (dumpsChars v ++ rest) = dumpsChars v ++ rest := by
  obtain ⟨c, cs, hc⟩ := List.exists_cons_of_ne_nil (dumpsChars_ne_nil v)
  rw [hc, List.cons_append, skipWs_cons_not_ws (dumpsChars_head v c cs hc).1]

theorem noDigitHead_arrTail (tl : JArr) (rest : List Char) :
    noDigitHead (arrTailChars tl ++ ']' :: rest) = true := by
  cases tl <;> rfl

theorem noDigitHead_objTail (o : JObj) (rest : List Char) :
    noDigitHead (objTailChars o ++ Char.ofNat 125 :: rest) = true := by
  cases o <;> rfl

theorem parseArrRestWith_rt (pv : List Char → Option (JVal × List Char)) (B : Nat)
    (hpv : ∀ (v : JVal) (rest : List Char),
      (dumpsChars v ++ rest).length ≤ B → noDigitHead rest = true →
      pv (dumpsChars v ++ rest) = some (v, rest)) :
    ∀ (tl : JArr) (fuelR : Nat) (rest : List Char),
      (arrTailChars tl ++ ']' :: rest).length ≤ fuelR → fuelR ≤ B →
      parseArrRestWith pv fuelR (arrTailChars tl ++ ']' :: rest) = some (tl, rest)
  | JArr.nil, fuelR, rest, hlen, hB => by
    have h0 : arrTailChars JArr.nil = [] := rfl
    rw [h0, List.nil_append] at hlen ⊢
    cases fuelR with
    | zero => simp at hlen
    | succ f =>
      have hs : skipWs (']' :: rest) = ']' :: rest := skipWs_cons_not_ws (by decide) _
      simp only [parseArrRestWith, hs, if_true]
  | JArr.cons v tl', fuelR, rest, hlen, hB => by
    have h0 : arrTailChars (JArr.cons v tl') ++ ']' :: rest =
        ',' :: ' ' :: (dumpsChars v ++ (arrTailChars tl' ++ ']' :: rest)) := by
      simp [arrTailChars]
    rw [h0] at hlen ⊢
    cases fuelR with
    | zero => simp at hlen
    | succ f =>
      have hs : skipWs (',' :: ' ' :: (dumpsChars v ++ (arrTailChars tl' ++ ']' :: rest))) =
          ',' :: ' ' :: (dumpsChars v ++ (arrTailChars tl' ++ ']' :: rest)) :=
        skipWs_cons_not_ws (by decide) _
      simp only [parseArrRestWith, hs, if_true]
      rw [skipWs_cons_ws (by decide), skipWs_dumps]
      have hlen2 : (dumpsChars v ++ (arrTailChars tl' ++ ']' :: rest)).length ≤ B := by
        simp only [List.length_cons] at hlen
        omega
      rw [hpv v _ hlen2 (noDigitHead_arrTail tl' rest)]
      have hlen3 : (arrTailChars tl' ++ ']' :: rest).length ≤ f := by
        simp only [List.length_cons, List.length_append] at hlen ⊢
        omega
      simp only [Option.some_bind]
      rw [parseArrRestWith_rt pv B hpv tl' f rest hlen3 (by omega)]
      rw [if_neg (by decide : ¬ (',' : Char) = ']')]
      rfl
theorem parseMemberWith_rt (pv : List Char → Option (JVal × List Char)) (B : Nat)
    (hpv : ∀ (v : JVal) (rest : List Char),
      (dumpsChars v ++ rest).length ≤ B → noDigitHead rest = true →
      pv (dumpsChars v ++ rest) = some (v, rest))
    (fuelS : Nat) (k : String) (v : JVal) (rest : List Char)
    (hklen : (escString k.data ++ '"' :: (':' :: ' ' :: (dumpsChars v ++ rest))).length ≤ fuelS)
    (hvlen : (dumpsChars v ++ rest).length ≤ B)
    (hnd : noDigitHead rest = true) :
    parseMemberWith pv fuelS (strChars k ++ (':' :: ' ' :: (dumpsChars v ++ rest))) =
      some ((k, v), rest) := by
  have h0 : strChars k ++ (':' :: ' ' :: (dumpsChars v ++ rest)) =
      '"' :: (escString k.data ++ '"' :: (':' :: ' ' :: (dumpsChars v ++ rest))) := by
    simp [strChars]
  rw [h0]
  simp only [parseMemberWith, if_true]
  rw [parseStringBody_escString k.data fuelS _ hklen]
  simp only [Option.some_bind]
  rw [skipWs_cons_not_ws (by decide)]
  simp only [if_true]
  rw [skipWs_cons_ws (by decide), skipWs_dumps]
  rw [hpv v rest hvlen hnd]
  simp only [Option.map_some']

theorem parseObjRestWith_rt (pm : List Char → Option ((String × JVal) × List Char)) (B : Nat)
    (hpm : ∀ (k : String) (v : JVal) (rest : List Char),
      (strChars k ++ (':' :: ' ' :: (dumpsChars v ++ rest))).length ≤ B →
      noDigitHead rest = true →
      pm (strChars k ++ (':' :: ' ' :: (dumpsChars v ++ rest))) = some ((k, v), rest)) :
    ∀ (o : JObj) (fuelR : Nat) (rest : List Char),
      (objTailChars o ++ Char.ofNat 125 :: rest).length ≤ fuelR → fuelR ≤ B →
      parseObjRestWith pm fuelR (objTailChars o ++ Char.ofNat 125 :: rest) = some (o, rest)
  | JObj.nil, fuelR, rest, hlen, hB => by
    have h0 : objTailChars JObj.nil = [] := rfl
    rw [h0, List.nil_append] at hlen ⊢
    cases fuelR with
    | zero => simp at hlen
    | succ f =>
      have hs : skipWs (Char.ofNat 125 :: rest) = Char.ofNat 125 :: rest :=
        skipWs_cons_not_ws (by decide) _
      simp only [parseObjRestWith, hs, if_true]
  | JObj.cons k v tl', fuelR, rest, hlen, hB => by
    have h0 : objTailChars (JObj.cons k v tl') ++ Char.ofNat 125 :: rest =
        ',' :: ' ' :: (strChars k ++
          (':' :: ' ' :: (dumpsChars v ++ (objTailChars tl' ++ Char.ofNat 125 :: rest)))) := by
      simp [objTailChars]
    rw [h0] at hlen ⊢
    cases fuelR with
    | zero => simp at hlen
    | succ f =>
      have hs : skipWs (',' :: ' ' :: (strChars k ++
          (':' :: ' ' :: (dumpsChars v ++ (objTailChars tl' ++ Char.ofNat 125 :: rest))))) =
          ',' :: ' ' :: (strChars k ++
            (':' :: ' ' :: (dumpsChars v ++ (objTailChars tl' ++ Char.ofNat 125 :: rest)))) :=
        skipWs_cons_not_ws (by decide) _
      simp only [parseObjRestWith, hs, if_true]
      rw [if_neg (by decide : ¬ (',' : Char) = Char.ofNat 125)]
      have hsk : skipWs (' ' :: (strChars k ++
          (':' :: ' ' :: (dumpsChars v ++ (objTailChars tl' ++ Char.ofNat 125 :: rest))))) =
          strChars k ++
            (':' :: ' ' :: (dumpsChars v ++ (objTailChars tl' ++ Char.ofNat 125 :: rest))) := by
        rw [skipWs_cons_ws (by decide)]
        rw [strChars, List.cons_append, skipWs_cons_not_ws (by decide)]
      rw [hsk]
      rw [hpm k v (objTailChars tl' ++ Char.ofNat 125 :: rest)
        (by
          simp only [List.length_cons] at hlen
          omega)
        (noDigitHead_objTail tl' rest)]
      simp only [Option.some_bind]
      rw [parseObjRestWith_rt pm B hpm tl' f rest
        (by
          simp only [List.length_cons, List.length_append, strChars] at hlen ⊢
          omega)
        (by omega)]
      rfl

theorem parseVal_digit_head (fuel : Nat) (c : Char) (rest : List Char)
    (h : charIsDigit c = true) :
    parseVal (fuel + 1) (c :: rest) =
      (parseNatNum (c :: rest)).map (fun p => (JVal.num (p.1 : Int), p.2)) := by
  simp only [parseVal]
  rw [if_neg (digit_ne h (by decide : Char.toNat 'n' < 48 ∨ 57 < Char.toNat 'n')),
    if_neg (digit_ne h (by decide : Char.toNat 't' < 48 ∨ 57 < Char.toNat 't')),
    if_neg (digit_ne h (by decide : Char.toNat 'f' < 48 ∨ 57 < Char.toNat 'f')),
    if_neg (digit_ne h (by decide : Char.toNat '"' < 48 ∨ 57 < Char.toNat '"')),
    if_neg (digit_ne h (by decide : Char.toNat '[' < 48 ∨ 57 < Char.toNat '[')),
    if_neg (digit_ne h
      (by decide : Char.toNat (Char.ofNat 123) < 48 ∨ 57 < Char.toNat (Char.ofNat 123))),
    if_neg (digit_ne h (by decide : Char.toNat '-' < 48 ∨ 57 < Char.toNat '-')),
    if_pos h]

theorem parseVal_dash (fuel : Nat) (rest : List Char) :
    parseVal (fuel + 1) ('-' :: rest) =
      (parseNatNum rest).map (fun p => (JVal.num (-(p.1 : Int)), p.2)) := by
  simp [parseVal]

theorem parseVal_rt :
    ∀ (fuel : Nat) (v : JVal) (rest : List Char),
      (dumpsChars v ++ rest).length ≤ fuel → noDigitHead rest = true →
      parseVal fuel (dumpsChars v ++ rest) = some (v, rest) := by
  intro fuel
  induction fuel with
  | zero =>
    intro v rest hlen _
    exfalso
    obtain ⟨c, cs, hc⟩ := List.exists_cons_of_ne_nil (dumpsChars_ne_nil v)
    rw [hc] at hlen
    simp at hlen
  | succ fuel ih =>
    intro v rest hlen hnd
    cases v with
    | null =>
      have h0 : dumpsChars JVal.null ++ rest = 'n' :: 'u' :: 'l' :: 'l' :: rest := rfl
      rw [h0]
      simp [parseVal]
    | bool b =>
      cases b with
      | true =>
        have h0 : dumpsChars (JVal.bool true) ++ rest = 't' :: 'r' :: 'u' :: 'e' :: rest := rfl
        rw [h0]
        simp [parseVal]
      | false =>
        have h0 : dumpsChars (JVal.bool false) ++ rest =
            'f' :: 'a' :: 'l' :: 's' :: 'e' :: rest := rfl
        rw [h0]
        simp [parseVal]
    | num i =>
      by_cases hneg : i < 0
      · have h0 : dumpsChars (JVal.num i) ++ rest = '-' :: (natChars i.natAbs ++ rest) := by
          simp [dumpsChars, intChars, hneg]
        rw [h0, parseVal_dash, parseNatNum_natChars _ _ hnd]
        simp only [Option.map_some']
        have hi : -((i.natAbs : Nat) : Int) = i := by omega
        rw [hi]
      · have h0 : dumpsChars (JVal.num i) ++ rest = natChars i.natAbs ++ rest := by
          simp [dumpsChars, intChars, hneg]
        obtain ⟨c, cs, hc⟩ := List.exists_cons_of_ne_nil (natChars_ne_nil i.natAbs)
        have hdig : charIsDigit c = true :=
          natChars_all_digits _ c (hc ▸ List.mem_cons_self c cs)
        rw [h0, hc, List.cons_append, parseVal_digit_head fuel c _ hdig, ← List.cons_append,
          ← hc, parseNatNum_natChars _ _ hnd]
        simp only [Option.map_some']
        have hi : ((i.natAbs : Nat) : Int) = i := by omega
        rw [hi]
    | str s =>
      have h0 : dumpsChars (JVal.str s) ++ rest = '"' :: (escString s.data ++ '"' :: rest) := by
        simp [dumpsChars, strChars]
      rw [h0] at hlen ⊢
      have hps : parseStringBody fuel (escString s.data ++ '"' :: rest) = some (s.data, rest) :=
        parseStringBody_escString s.data fuel rest (by
          simp only [List.length_cons] at hlen
          omega)
      simp [parseVal, hps]
    | arr a =>
      cases a with
      | nil =>
        have h0 : dumpsChars (JVal.arr JArr.nil) ++ rest = '[' :: ']' :: rest := rfl
        rw [h0]
        have hs : skipWs (']' :: rest) = ']' :: rest := skipWs_cons_not_ws (by decide) _
        simp [parseVal, hs]
      | cons v1 tl =>
        have h0 : dumpsChars (JVal.arr (JArr.cons v1 tl)) ++ rest =
            '[' :: (dumpsChars v1 ++ (arrTailChars tl ++ ']' :: rest)) := by
          simp [dumpsChars]
        rw [h0] at hlen ⊢
        obtain ⟨c, cs, hc⟩ := List.exists_cons_of_ne_nil (dumpsChars_ne_nil v1)
        have hhead := dumpsChars_head v1 c cs hc
        have hsk : skipWs (dumpsChars v1 ++ (arrTailChars tl ++ ']' :: rest)) =
            c :: (cs ++ (arrTailChars tl ++ ']' :: rest)) := by
          rw [skipWs_dumps, hc, List.cons_append]
        simp only [List.length_cons, List.length_append] at hlen
        simp [parseVal, hsk, hhead.2.1]
        rw [← List.cons_append, ← hc,
          ih v1 (arrTailChars tl ++ ']' :: rest)
            (by
              simp only [List.length_append, List.length_cons]
              omega)
            (noDigitHead_arrTail tl rest)]
        simp only [Option.some_bind]
        rw [parseArrRestWith_rt (parseVal fuel) fuel ih tl fuel rest
          (by
            simp only [List.length_append, List.length_cons]
            omega)
          (Nat.le_refl fuel)]
        simp only [Option.map_some']
    | obj o =>
      cases o with
      | nil =>
        have h0 : dumpsChars (JVal.obj JObj.nil) ++ rest =
            Char.ofNat 123 :: Char.ofNat 125 :: rest := rfl
        rw [h0]
        have hs : skipWs (Char.ofNat 125 :: rest) = Char.ofNat 125 :: rest :=
          skipWs_cons_not_ws (by decide) _
        simp [parseVal, hs, show ¬ (Char.ofNat 123 = 'n') by decide,
          show ¬ (Char.ofNat 123 = 't') by decide, show ¬ (Char.ofNat 123 = 'f') by decide,
          show ¬ (Char.ofNat 123 = '"') by decide, show ¬ (Char.ofNat 123 = '[') by decide]
      | cons k v1 tl =>
        have h0 : dumpsChars (JVal.obj (JObj.cons k v1 tl)) ++ rest =
            Char.ofNat 123 :: (strChars k ++ (':' :: ' ' :: (dumpsChars v1 ++
              (objTailChars tl ++ Char.ofNat 125 :: rest)))) := by
          simp [dumpsChars]
        rw [h0] at hlen ⊢
        have hsk : skipWs (strChars k ++ (':' :: ' ' :: (dumpsChars v1 ++
            (objTailChars tl ++ Char.ofNat 125 :: rest)))) =
            '"' :: (escString k.data ++ '"' :: (':' :: ' ' :: (dumpsChars v1 ++
              (objTailChars tl ++ Char.ofNat 125 :: rest)))) := by
          rw [strChars, List.cons_append, List.append_assoc, List.singleton_append,
            skipWs_cons_not_ws (by decide)]
        simp only [List.length_cons, List.length_append, strChars] at hlen
        simp [parseVal, hsk, show ¬ (Char.ofNat 123 = 'n') by decide,
          show ¬ (Char.ofNat 123 = 't') by decide, show ¬ (Char.ofNat 123 = 'f') by decide,
          show ¬ (Char.ofNat 123 = '"') by decide, show ¬ (Char.ofNat 123 = '[') by decide,
          show ¬ (('"' : Char) = Char.ofNat 125) by decide]
        have hms : ('"' : Char) :: (escString k.data ++ '"' :: (':' :: ' ' :: (dumpsChars v1 ++
            (objTailChars tl ++ Char.ofNat 125 :: rest)))) =
            strChars k ++ (':' :: ' ' :: (dumpsChars v1 ++
              (objTailChars tl ++ Char.ofNat 125 :: rest))) := by
          simp [strChars]
        rw [hms, parseMemberWith_rt (parseVal fuel) fuel ih fuel k v1
          (objTailChars tl ++ Char.ofNat 125 :: rest)
          (by
            simp only [List.length_append, List.length_cons]
            omega)
          (by
            simp only [List.length_append, List.length_cons]
            omega)
          (noDigitHead_objTail tl rest)]
        simp only [Option.some_bind]
        rw [parseObjRestWith_rt (parseMemberWith (parseVal fuel) fuel) fuel
          (fun k' v' r' hl hr =>
            parseMemberWith_rt (parseVal fuel) fuel ih fuel k' v' r'
              (by
                simp only [strChars, List.length_append, List.length_cons] at hl ⊢
                omega)
              (by
                simp only [strChars, List.length_append, List.length_cons] at hl ⊢
                omega)
              hr)
          tl fuel rest
          (by
            simp only [List.length_append, List.length_cons]
            omega)
          (Nat.le_refl fuel)]
        simp only [Option.map_some']

theorem loads_dumps (v : JVal) : loads (dumps v) = some v := by
  have hd : (dumps v).data = dumpsChars v := rfl
  have h2 : skipWs (dumpsChars v) = dumpsChars v := by
    have h := skipWs_dumps v []
    simpa using h
  have h1 : parseVal ((dumps v).data.length + 1) (skipWs (dumps v).data) = some (v, []) := by
    rw [hd, h2]
    have h := parseVal_rt ((dumpsChars v).length + 1) v [] (by simp) rfl
    simpa using h
  unfold loads
  rw [h1]
  simp [skipWs]

/-- Claim C9: the command line passes exactly the serialized input as the
single extra argument, and for every JSON-serializable input value
(nested objects, arrays, unicode strings, integer numbers), parsing that
serialized argument recovers a value equal to the original input:
parse after serialize is the identity on the forwarded input. -/
theorem loads_dumps_roundtrip (input : JVal) :
    mkCommand input = ["node", nodeScriptPath, dumps input] ∧
      loads (dumps input) = some input :=
  ⟨rfl, loads_dumps input⟩
